import Mathlib

/-!
Verification of the ai_security_camera edge-device pipeline.

Shallow embedding of the concurrency / resource-coordination core:
 * `Delivery`    — `pi/utils/cloud_communicator.py` (`CloudCommunicator`)
 * `PIR`         — `pi/sensors/pir.py` (`PIRSensor._monitor_motion`)
 * `CameraLoop`  — `pi/camera/camera_utils.py` (`start_motion_monitoring` worker)
 * `Capture`     — `pi/camera/camera_utils.py` (capture orchestration)
 * `ConfigExec`  — `pi/utils/config_queue.py` (request execution and status)
 * `ConfigHeap`  — the CPython `heapq` algorithm that backs
                   `queue.PriorityQueue` used by `ConfigurationQueue`

Python machine floats only ever enter these claims through comparisons and
assignment, never through rounding-sensitive arithmetic, so times and
thresholds are modelled as rationals; network and filesystem outcomes are
oracle booleans supplied per attempt.
-/

namespace Delivery

/-- A queued delivery item, `event_item` in `send_security_event`:
`files` holds the identifiers of the opened attachment handles
(the `'image'` and optional `'video'` entries of the `files` dict),
`retries` mirrors `event_item['retries']`. -/
structure EventItem where
  files : List Nat
  retries : Nat
  deriving Repr, DecidableEq

/-- State of a `CloudCommunicator`: the bounded `event_queue`, the
`events_sent` / `events_failed` counters of `self.stats`, and per-handle
bookkeeping: `opens h` counts how many times handle `h` was opened
(`open(path, 'rb')`), `closes h` how many times `.close()` was invoked on it
(via `_close_files`). -/
structure CState where
  queue : List EventItem
  eventsSent : Nat
  eventsFailed : Nat
  opens : Nat → Nat
  closes : Nat → Nat

/-- `self.event_queue = queue.Queue(maxsize=100)`. -/
def queueCapacity : Nat := 100

/-- `self.max_retries = 3`. -/
def maxRetries : Nat := 3

/-- `_close_files(files)`: calls `.close()` on every handle of the dict. -/
def closeFiles (files : List Nat) (s : CState) : CState :=
  { s with closes := fun h => s.closes h + files.count h }

/-- Open the attachment handles (the `open(snapshot_path, 'rb')` /
`open(video_path, 'rb')` calls of `send_security_event`). -/
def openFiles (files : List Nat) (s : CState) : CState :=
  { s with opens := fun h => s.opens h + files.count h }

/-- `_send_event_direct(event_data, files)`: posts the multipart request;
`outcome` is the network oracle (`True` iff status 200).  On success
`events_sent` is bumped; the `finally:` block closes the files dict on
every attempt, success or not. -/
def sendEventDirect (outcome : Bool) (files : List Nat) (s : CState) :
    Bool × CState :=
  let s1 := if outcome then { s with eventsSent := s.eventsSent + 1 } else s
  (outcome, closeFiles files s1)

/-- `send_security_event(...)`.
`snapshotOk` is `snapshot_path and os.path.exists(snapshot_path)`,
`videoOk` is `video_path and os.path.exists(video_path)`;
`img` / `vid` are the handle identifiers the two `open` calls would yield;
`outcome` is the network oracle for the optional priority direct send. -/
def sendSecurityEvent (snapshotOk videoOk priority : Bool) (img vid : Nat)
    (outcome : Bool) (s : CState) : Bool × CState :=
  if snapshotOk then
    let files := [img] ++ (if videoOk then [vid] else [])
    let s0 := openFiles files s
    let direct := if priority then some (sendEventDirect outcome files s0) else none
    match direct with
    | some (true, s1) => (true, s1)
    | some (false, s1) =>
        if s1.queue.length < queueCapacity then
          (true, { s1 with queue := s1.queue ++ [⟨files, 0⟩] })
        else
          (false, closeFiles files s1)
    | none =>
        if s0.queue.length < queueCapacity then
          (true, { s0 with queue := s0.queue ++ [⟨files, 0⟩] })
        else
          (false, closeFiles files s0)
  else
    (false, s)

/-- One iteration of the `_process_event_queue` worker in which an item was
obtained from the queue (`queue.Empty` iterations leave the state alone).
`outcome` is the network oracle for this attempt. -/
def processOne (outcome : Bool) (s : CState) : CState :=
  match s.queue with
  | [] => s
  | item :: rest =>
    let s0 := { s with queue := rest }
    let (ok, s1) := sendEventDirect outcome item.files s0
    if ok then s1
    else
      let item' : EventItem := { item with retries := item.retries + 1 }
      if item'.retries < maxRetries then
        if s1.queue.length < queueCapacity then
          { s1 with queue := s1.queue ++ [item'] }
        else
          closeFiles item'.files s1
      else
        closeFiles item'.files
          { s1 with eventsFailed := s1.eventsFailed + 1 }

/-- An all-zero communicator state (fresh `CloudCommunicator`). -/
def initC : CState :=
  { queue := [], eventsSent := 0, eventsFailed := 0
    opens := fun _ => 0, closes := fun _ => 0 }

/-- A communicator whose event queue sits at capacity. -/
def fullState : CState :=
  { initC with queue := List.replicate queueCapacity ⟨[], 0⟩ }

end Delivery

namespace PIR

/-- Loop state of `PIRSensor._monitor_motion`: `last_motion_time` and the
`consecutive_skips` counter.  `last_motion_time` starts at `0`. -/
structure PState where
  lastMotionTime : ℚ
  consecutiveSkips : Nat
  deriving DecidableEq

/-- `debounce_delay = 10.0`. -/
def debounceDelay : ℚ := 10

/-- One poll of the monitor loop: `time` is `time.time()`, `high` is
`is_motion_detected()`, `busy` is `camera_manager and camera_manager.camera_is_busy()`.
Returns the new state and whether `motion_event.set()` fired (a MotionEvent
was emitted). -/
def step (s : PState) (time : ℚ) (high busy : Bool) : PState × Bool :=
  if high then
    if s.lastMotionTime + debounceDelay < time then
      if busy then ({ s with consecutiveSkips := s.consecutiveSkips + 1 }, false)
      else ({ lastMotionTime := time, consecutiveSkips := 0 }, true)
    else (s, false)
  else (s, false)

/-- A polled reading: timestamp, raw pin level, camera-busy flag. -/
structure Reading where
  time : ℚ
  high : Bool
  busy : Bool

/-- Run the monitor over a list of readings; returns the final state and the
per-reading emission flags. -/
def run (s : PState) : List Reading → PState × List Bool
  | [] => (s, [])
  | r :: rs =>
    let (s', e) := step s r.time r.high r.busy
    let (sf, es) := run s' rs
    (sf, e :: es)

end PIR

namespace CameraLoop

/-- `max_consecutive_busy = 3` in `start_motion_monitoring`'s worker. -/
def maxConsecutiveBusy : Nat := 3

/-- The force-reset branch fires when
`consecutive_busy_count >= max_consecutive_busy + 5`. -/
def forcedResetThreshold : Nat := maxConsecutiveBusy + 5

/-- State of the motion worker of `start_motion_monitoring`: the shared
`camera_busy` event and the local `consecutive_busy_count`. -/
structure WState where
  busy : Bool
  count : Nat
  deriving DecidableEq, Repr

/-- Handling of one motion event received by the worker
(`pir_sensor.wait_for_motion` returned true).  If the camera is busy the
event is skipped: the counter is bumped and, once it reaches the forced
reset threshold, `camera_busy.clear()` runs and the counter restarts at 0.
Otherwise the counter resets and `motion_triggered_capture()` runs to
completion in this thread (it sets `camera_busy` and clears it in its
`finally:`).  The returned flag says whether a capture was attempted. -/
def onMotionEvent (s : WState) : WState × Bool :=
  if s.busy then
    let c := s.count + 1
    if forcedResetThreshold ≤ c then ({ busy := false, count := 0 }, false)
    else ({ s with count := c }, false)
  else
    ({ busy := false, count := 0 }, true)

/-- Deliver `n` motion events in a row; returns the final worker state and
how many of the events led to a capture attempt. -/
def runEvents : Nat → WState → WState × Nat
  | 0, s => (s, 0)
  | n + 1, s =>
    let (s', captured) := onMotionEvent s
    let (sf, k) := runEvents n s'
    (sf, (if captured then 1 else 0) + k)

end CameraLoop

namespace Capture

/-- Observable camera operations, in the order the code performs them. -/
inductive Op
  | videoSwitch | videoRecover | videoRecord
  | settle
  | photoSwitch | photoRecover | photoCapture
  deriving DecidableEq, Repr

/-- Failure oracle for `record_low_res_video`: whether
`switch_mode(video_config)` succeeds, whether the stop/start/switch recovery
cycle succeeds, whether the recording calls themselves succeed, and whether
`os.path.exists(filename)` holds afterwards. -/
structure VideoOracle where
  switchOk : Bool
  recoverOk : Bool
  recordOk : Bool
  fileCreated : Bool

/-- Failure oracle for `capture_high_res_snapshot`. -/
structure PhotoOracle where
  switchOk : Bool
  recoverOk : Bool
  captureOk : Bool

/-- `record_low_res_video()`: switch to video mode (with one bounded
recovery cycle on failure; a recovery failure re-raises and the outer
`except` returns `None`), record, then verify the file exists.
Returns the artifact (`filename` or `None`) and the operation trace. -/
def recordLowResVideo (initialized : Bool) (o : VideoOracle) :
    Option String × List Op :=
  if initialized then
    if o.switchOk then
      if o.recordOk then
        if o.fileCreated then (some "video", [.videoSwitch, .videoRecord])
        else (none, [.videoSwitch, .videoRecord])
      else (none, [.videoSwitch, .videoRecord])
    else
      if o.recoverOk then
        if o.recordOk then
          if o.fileCreated then (some "video", [.videoSwitch, .videoRecover, .videoRecord])
          else (none, [.videoSwitch, .videoRecover, .videoRecord])
        else (none, [.videoSwitch, .videoRecover, .videoRecord])
      else (none, [.videoSwitch, .videoRecover])
  else (none, [])

/-- `capture_high_res_snapshot()`: switch to photo mode (same bounded
recovery pattern), then `capture_file`; any residual exception is caught and
`None` returned. -/
def captureHighResSnapshot (initialized : Bool) (o : PhotoOracle) :
    Option String × List Op :=
  if initialized then
    if o.switchOk then
      if o.captureOk then (some "snapshot", [.photoSwitch, .photoCapture])
      else (none, [.photoSwitch, .photoCapture])
    else
      if o.recoverOk then
        if o.captureOk then (some "snapshot", [.photoSwitch, .photoRecover, .photoCapture])
        else (none, [.photoSwitch, .photoRecover, .photoCapture])
      else (none, [.photoSwitch, .photoRecover])
  else (none, [])

/-- The `capture_info` dict built by `motion_triggered_capture`. -/
structure CaptureInfo where
  video : Option String
  snapshot : Option String
  success : Bool
  deriving DecidableEq, Repr

/-- `motion_triggered_capture()`: sets `camera_busy`, records the video
first, sleeps 0.5s (the settling delay), then captures the snapshot, and
clears `camera_busy` in its `finally:`.  Returns the capture info, the
operation trace, and the busy flag value after completion. -/
def motionTriggeredCapture (initialized : Bool) (vo : VideoOracle)
    (po : PhotoOracle) : CaptureInfo × List Op × Bool :=
  let v := recordLowResVideo initialized vo
  let p := captureHighResSnapshot initialized po
  (⟨v.1, p.1, v.1.isSome && p.1.isSome⟩, v.2 ++ [Op.settle] ++ p.2, false)

end Capture

namespace ConfigExec

/-- The fields of `BehaviorAnalyzer` touched by `_update_dwelling_config`. -/
structure Analyzer where
  dwelling_threshold : ℚ
  frame_skip : ℤ
  deriving DecidableEq, Repr

/-- The `data` dict of an `update_dwelling_config` request: either key may
be absent. -/
structure DwellingData where
  dwelling_threshold : Option ℚ
  frame_skip : Option ℤ

/-- One entry of the `results` list built by `_update_dwelling_config`
(`f"dwelling_threshold={threshold}s"` / `f"frame_skip={frame_skip}"`),
kept structured rather than string-rendered. -/
inductive DwellingChange
  | thresholdSet (t : ℚ)
  | frameSkipSet (n : ℤ)
  deriving DecidableEq, Repr

/-- Outcome of `_execute_config_request`: the `(success, result_or_error)`
pair. -/
inductive ExecOutcome
  | ok (changes : List DwellingChange)
  | err (msg : String)
  deriving DecidableEq, Repr

/-- The `frame_skip` half of `_update_dwelling_config`, entered with the
analyzer state and results accumulated by the threshold half. -/
def frameSkipStep (a : Analyzer) (res : List DwellingChange) :
    Option ℤ → ExecOutcome × Option Analyzer
  | some n =>
    if 0 < n then
      (.ok (res ++ [.frameSkipSet n]), some { a with frame_skip := n })
    else (.err "Frame skip must be positive", some a)
  | none => (.ok res, some a)

/-- `_update_dwelling_config(data)`: fails when no behavior analyzer is
available; otherwise validates and applies `dwelling_threshold` then
`frame_skip`, mutating the shared analyzer in place (a mutation made before
a later validation failure persists, as in the source). -/
def updateDwellingConfig (data : DwellingData) :
    Option Analyzer → ExecOutcome × Option Analyzer
  | none => (.err "Behavior analyzer not available", none)
  | some a =>
    match data.dwelling_threshold with
    | some t =>
      if 0 < t then
        frameSkipStep { a with dwelling_threshold := t }
          [.thresholdSet t] data.frame_skip
      else (.err "Dwelling threshold must be positive", some a)
    | none => frameSkipStep a [] data.frame_skip

/-- Worker-side bookkeeping of `ConfigurationQueue`: the
`completed_requests` / `failed_requests` maps and the shared analyzer. -/
structure QState where
  completed : List (String × ExecOutcome)
  failed : List (String × String)
  analyzer : Option Analyzer

/-- One `_process_queue` iteration executing an `update_dwelling_config`
request and recording its outcome under the request id. -/
def processDwellingRequest (id : String) (data : DwellingData)
    (st : QState) : QState :=
  match updateDwellingConfig data st.analyzer with
  | (.ok changes, a') =>
    { st with analyzer := a', completed := (id, .ok changes) :: st.completed }
  | (.err m, a') =>
    { st with analyzer := a', failed := (id, m) :: st.failed }

/-- The status report of `get_request_status`. -/
inductive Status
  | completed (result : ExecOutcome)
  | failed (e : String)
  | pendingOrNotFound
  deriving DecidableEq, Repr

/-- `get_request_status(request_id)`. -/
def getRequestStatus (id : String) (st : QState) : Status :=
  match st.completed.lookup id with
  | some r => .completed r
  | none =>
    match st.failed.lookup id with
    | some e => .failed e
    | none => .pendingOrNotFound

end ConfigExec

namespace ConfigHeap

/-- An entry of `ConfigurationQueue.config_queue`: the tuple
`(priority, config_request)` stored by `add_request`.  The request is
abstracted to its submission sequence number.  `ConfigRequest.__lt__`
compares `self.priority < other.priority` only, and `add_request` stores
the same priority in the tuple and in the request, so the Python tuple
comparison `(p1, r1) < (p2, r2)` reduces to `p1 < p2`. -/
abbrev Entry := Nat × Nat

/-- Default entry for out-of-range reads (never reached on the paths the
source exercises). -/
def dflt : Entry := (0, 0)

/-- The `<` comparison `heapq` applies to queue entries. -/
def entryLt (a b : Entry) : Bool := a.1 < b.1

/-- CPython `heapq._siftdown(heap, startpos, pos)` — bubble `newitem` from
the hole at `pos` toward the root.  `queue.PriorityQueue.put` delegates to
`heappush`, which runs this loop.  The loop is given `pos` as fuel: each
iteration moves the hole to `(pos-1)/2 < pos`, so the fuel never runs out
before the loop exits, and at fuel 0 the hole is at the root where the
fallback coincides with the loop exit write `heap[pos] = newitem`. -/
def siftdownAux : Nat → List Entry → Entry → Nat → Nat → List Entry
  | 0, heap, newitem, _, pos => heap.set pos newitem
  | fuel + 1, heap, newitem, startpos, pos =>
    if startpos < pos then
      let parentpos := (pos - 1) / 2
      let parent := heap.getD parentpos dflt
      if entryLt newitem parent then
        siftdownAux fuel (heap.set pos parent) newitem startpos parentpos
      else heap.set pos newitem
    else heap.set pos newitem

/-- `heapq._siftdown` with its `newitem = heap[pos]` read. -/
def siftdown (heap : List Entry) (startpos pos : Nat) : List Entry :=
  siftdownAux pos heap (heap.getD pos dflt) startpos pos

/-- CPython `heapq.heappush`: append, then `_siftdown(heap, 0, len-1)`. -/
def heappush (heap : List Entry) (item : Entry) : List Entry :=
  siftdown (heap ++ [item]) 0 heap.length

/-- The loop of CPython `heapq._siftup(heap, pos)`: move the hole at `pos`
down to a leaf, always descending to the child that is not smaller than its
sibling under `<` (on a tie — and equal priorities never compare smaller —
the right child is chosen).  Returns the array before the final
`heap[pos] = newitem` write, together with the final hole position.
Fuel `heap.length` bounds the descent. -/
def siftupLoop : Nat → List Entry → Nat → List Entry × Nat
  | 0, heap, pos => (heap, pos)
  | fuel + 1, heap, pos =>
    let endpos := heap.length
    let childpos := 2 * pos + 1
    if childpos < endpos then
      let rightpos := childpos + 1
      let childpos :=
        if rightpos < endpos &&
            !entryLt (heap.getD childpos dflt) (heap.getD rightpos dflt)
        then rightpos else childpos
      siftupLoop fuel (heap.set pos (heap.getD childpos dflt)) childpos
    else (heap, pos)

/-- CPython `heapq._siftup(heap, pos)`: after the descent, write `newitem`
into the hole and bubble it back up with `_siftdown(heap, startpos, pos)`. -/
def siftup (heap : List Entry) (pos : Nat) : List Entry :=
  let newitem := heap.getD pos dflt
  let hp := siftupLoop heap.length heap pos
  siftdownAux hp.2 (hp.1.set hp.2 newitem) newitem pos hp.2

/-- CPython `heapq.heappop`: remove the last element; if the heap is still
nonempty, the root is the return value, the last element is moved into the
root and `_siftup(heap, 0)` repairs the heap.
`queue.PriorityQueue.get` delegates to `heappop`. -/
def heappop (heap : List Entry) : Option (Entry × List Entry) :=
  match heap.getLast? with
  | none => none
  | some lastelt =>
    match heap.dropLast with
    | [] => some (lastelt, [])
    | r0 :: rest => some (r0, siftup ((r0 :: rest).set 0 lastelt) 0)

/-- Pop until empty: the order in which `_process_queue` receives the
requests when it drains the queue.  `heappop` shortens the heap by one, so
`heap.length` rounds suffice. -/
def drainFuel : Nat → List Entry → List Entry
  | 0, _ => []
  | fuel + 1, heap =>
    match heappop heap with
    | none => []
    | some (x, rest) => x :: drainFuel fuel rest

/-- Processing order of a drained queue. -/
def drain (heap : List Entry) : List Entry := drainFuel heap.length heap

/-- The queue entries produced by a list of submissions: the i-th submitted
request has priority `ps[i]` and sequence number `i`. -/
def submissionEntries (ps : List Nat) : List Entry :=
  ps.enum.map fun ip => (ip.2, ip.1)

/-- Submit every request in order (`add_request` → `PriorityQueue.put` →
`heappush`), starting from an empty queue. -/
def pushAll (ps : List Nat) : List Entry :=
  (submissionEntries ps).foldl heappush []

/-- Priority stored at index `i` of the queue array. -/
def keyAt (l : List Entry) (i : Nat) : Nat := (l.getD i dflt).1

/-- The zero-based binary min-heap invariant `heapq` maintains on the
array: every parent has priority at most that of its children. -/
def IsHeap (l : List Entry) : Prop :=
  ∀ c, 0 < c → c < l.length → keyAt l ((c - 1) / 2) ≤ keyAt l c

end ConfigHeap

namespace Concurrency

/-- Phase of the camera worker thread of `start_motion_monitoring`: waiting
on `wait_for_motion`, or inside `motion_triggered_capture` with `k`
internal steps left before its `finally:` runs. -/
inductive Phase
  | waiting
  | capturing (remaining : Nat)
  deriving DecidableEq, Repr

/-- Shared and per-thread state of the capture pipeline: the `camera_busy`
event, the PIR `motion_event`, the worker phase, its
`consecutive_busy_count`, and a ghost count `active` of capture operations
currently running against the camera. -/
structure Sys where
  busy : Bool
  motionEvent : Bool
  phase : Phase
  count : Nat
  active : Nat
  deriving DecidableEq, Repr

/-- Interleaved small-step transitions of the PIR monitor thread and the
camera motion worker.  The PIR thread may pulse `motion_event` at any time;
the worker, on an observed event, either skips (camera busy: counter bump,
force reset at the threshold) or runs `motion_triggered_capture`, whose
first statement sets `camera_busy` and whose `finally:` clears it. -/
inductive Step : Sys → Sys → Prop
  | pirSignal (s : Sys) :
      Step s { s with motionEvent := true }
  | pirClear (s : Sys) :
      Step s { s with motionEvent := false }
  | workerSkip (s : Sys)
      (hm : s.motionEvent = true) (hp : s.phase = .waiting)
      (hb : s.busy = true)
      (hc : s.count + 1 < CameraLoop.forcedResetThreshold) :
      Step s { s with count := s.count + 1 }
  | workerForceReset (s : Sys)
      (hm : s.motionEvent = true) (hp : s.phase = .waiting)
      (hb : s.busy = true)
      (hc : CameraLoop.forcedResetThreshold ≤ s.count + 1) :
      Step s { s with busy := false, count := 0 }
  | workerBeginCapture (s : Sys) (n : Nat)
      (hm : s.motionEvent = true) (hp : s.phase = .waiting)
      (hb : s.busy = false) :
      Step s { s with busy := true, count := 0, phase := .capturing n,
                      active := s.active + 1 }
  | workerCaptureStep (s : Sys) (k : Nat)
      (hp : s.phase = .capturing (k + 1)) :
      Step s { s with phase := .capturing k }
  | workerEndCapture (s : Sys)
      (hp : s.phase = .capturing 0) :
      Step s { s with busy := false, phase := .waiting,
                      active := s.active - 1 }

/-- Initial state: camera idle, no pending event. -/
def init : Sys :=
  { busy := false, motionEvent := false, phase := .waiting,
    count := 0, active := 0 }

/-- States reachable from `init` by interleaved steps. -/
inductive Reachable : Sys → Prop
  | base : Reachable init
  | step {s s' : Sys} : Reachable s → Step s s' → Reachable s'

/-- Number of captures a phase holds: the worker runs
`motion_triggered_capture` synchronously, so a phase carries one capture
at most. -/
def phaseActive : Phase → Nat
  | .waiting => 0
  | .capturing _ => 1

/-- `init` after the PIR thread pulses `motion_event`. -/
def signalled : Sys :=
  { busy := false, motionEvent := true, phase := .waiting,
    count := 0, active := 0 }

/-- The state in which the worker has just entered a capture with one
internal step remaining: busy flag set, one capture active. -/
def midCapture : Sys :=
  { busy := true, motionEvent := true, phase := .capturing 1,
    count := 0, active := 1 }

/-- `midCapture` after one internal capture step. -/
def midCapture' : Sys :=
  { busy := true, motionEvent := true, phase := .capturing 0,
    count := 0, active := 1 }

end Concurrency

namespace Delivery

/-- C10: when the snapshot path is `None` or names a missing file,
`send_security_event` returns `False` immediately; the event is neither
queued nor attempted, no counter moves, and no attachment — image or
video — is opened, for either value of the priority flag. -/
theorem send_missing_snapshot_refuses (videoOk priority outcome : Bool)
    (img vid : Nat) (s : CState) :
    sendSecurityEvent false videoOk priority img vid outcome s = (false, s) := by
  rfl

/-- C4: a priority item whose direct send fails is queued (`send` still
returns `True`), then retried by the background worker with `retries`
going 1, 2, 3 across the three failed attempts; on the third attempt it is
dropped, and `events_failed` grows by exactly one over the whole lifecycle,
not once per failed attempt. -/
theorem priority_direct_fail_retry_lifecycle (videoOk : Bool)
    (img vid : Nat) (s : CState) (h : s.queue = []) :
    let files := [img] ++ (if videoOk then [vid] else [])
    let r1 := sendSecurityEvent true videoOk true img vid false s
    let s1 := r1.2
    let s2 := processOne false s1
    let s3 := processOne false s2
    let s4 := processOne false s3
    r1.1 = true ∧
    s1.queue = [⟨files, 0⟩] ∧
    s2.queue = [⟨files, 1⟩] ∧
    s3.queue = [⟨files, 2⟩] ∧
    s4.queue = [] ∧
    s1.eventsFailed = s.eventsFailed ∧
    s2.eventsFailed = s.eventsFailed ∧
    s3.eventsFailed = s.eventsFailed ∧
    s4.eventsFailed = s.eventsFailed + 1 := by
  obtain ⟨q, es, ef, op, cl⟩ := s
  simp only [CState.mk.injEq] at h ⊢
  subst h
  simp [sendSecurityEvent, processOne, sendEventDirect, closeFiles,
    openFiles, queueCapacity, maxRetries]

/-- Closed witness for `priority_direct_fail_retry_lifecycle` at an empty
fresh communicator with an image and video attachment. -/
theorem priority_direct_fail_retry_lifecycle_witness :
    initC.queue = [] ∧
    (let files := [7] ++ (if true = true then [9] else [])
     let r1 := sendSecurityEvent true true true 7 9 false initC
     let s1 := r1.2
     let s2 := processOne false s1
     let s3 := processOne false s2
     let s4 := processOne false s3
     r1.1 = true ∧
     s1.queue = [⟨files, 0⟩] ∧
     s2.queue = [⟨files, 1⟩] ∧
     s3.queue = [⟨files, 2⟩] ∧
     s4.queue = [] ∧
     s1.eventsFailed = initC.eventsFailed ∧
     s2.eventsFailed = initC.eventsFailed ∧
     s3.eventsFailed = initC.eventsFailed ∧
     s4.eventsFailed = initC.eventsFailed + 1) :=
  ⟨rfl, priority_direct_fail_retry_lifecycle true 7 9 initC rfl⟩

end Delivery

namespace Delivery

/-- C3 counterexample: with the queue at capacity, a non-priority
submission is dropped (`False` returned, queue unchanged, the image handle
closed) — yet `events_failed` stays 0, where the claim requires it to be
incremented. -/
theorem send_full_drop_failed_counter_cex :
    (sendSecurityEvent true false false 7 0 false fullState).1 = false ∧
    (sendSecurityEvent true false false 7 0 false fullState).2.queue
      = fullState.queue ∧
    (sendSecurityEvent true false false 7 0 false fullState).2.closes 7 = 1 ∧
    fullState.eventsFailed = 0 ∧
    (sendSecurityEvent true false false 7 0 false fullState).2.eventsFailed
      = 0 := by
  decide

/-- C3 amended: a non-priority submission — or a priority submission whose
direct send failed — made while the delivery queue is at capacity is
dropped: it returns `False`, the queue is unchanged, the attachments are
closed, and no counter moves; in particular `events_failed` is *not*
incremented on this path. -/
theorem send_full_drop (videoOk priority : Bool) (img vid : Nat)
    (s : CState) (h : queueCapacity ≤ s.queue.length) :
    let r := sendSecurityEvent true videoOk priority img vid false s
    r.1 = false ∧
    r.2.queue = s.queue ∧
    r.2.eventsFailed = s.eventsFailed ∧
    r.2.eventsSent = s.eventsSent ∧
    s.closes img < r.2.closes img ∧
    (videoOk = true → s.closes vid < r.2.closes vid) := by
  have hq : ¬ s.queue.length < queueCapacity := Nat.not_lt.mpr h
  cases priority <;>
    simp [sendSecurityEvent, sendEventDirect, openFiles, closeFiles, hq,
      List.count_cons] <;>
    first
    | tauto
    | (refine ⟨by omega, fun hv => ?_⟩; simp [hv]; omega)

/-- Closed witness for `send_full_drop`: a full queue, priority submission
with image handle 7 and video handle 9 whose direct send fails. -/
theorem send_full_drop_witness :
    queueCapacity ≤ fullState.queue.length ∧
    (let r := sendSecurityEvent true true true 7 9 false fullState
     r.1 = false ∧
     r.2.queue = fullState.queue ∧
     r.2.eventsFailed = fullState.eventsFailed ∧
     r.2.eventsSent = fullState.eventsSent ∧
     fullState.closes 7 < r.2.closes 7 ∧
     (true = true → fullState.closes 9 < r.2.closes 9)) :=
  ⟨by decide, send_full_drop true true 7 9 fullState (by decide)⟩

/-- C2: the attachment handles of a queued item are *not* released exactly
once per removal.  A fresh non-priority event (image handle 7, opened once)
is queued; the first failed background attempt closes the handle inside the
`finally:` of `_send_event_direct` even though the item is re-enqueued
(close count 1 with the item still in the queue), and by the time the item
is dropped after exhausting its retries the handle has been closed four
times. -/
theorem requeue_closes_handles_bug :
    (let s1 := (sendSecurityEvent true false false 7 0 false initC).2
     let s2 := processOne false s1
     let s4 := processOne false (processOne false s2)
     s1.queue = [⟨[7], 0⟩] ∧ s1.opens 7 = 1 ∧ s1.closes 7 = 0 ∧
     s2.queue = [⟨[7], 1⟩] ∧ s2.closes 7 = 1 ∧
     s4.queue = [] ∧ s4.closes 7 = 4 ∧ s4.opens 7 = 1) := by
  decide

end Delivery

namespace PIR

/-- If a poll emitted a MotionEvent, the loop state afterwards records the
trigger time and a reset skip counter. -/
theorem step_emit_state (s : PState) (t : ℚ) (hi bu : Bool)
    (h : (step s t hi bu).2 = true) : (step s t hi bu).1 = ⟨t, 0⟩ := by
  unfold step at h ⊢
  cases hi <;> simp_all only [Bool.false_eq_true, if_false, if_true]
  by_cases hlt : s.lastMotionTime + debounceDelay < t
  · cases bu <;> simp_all [hlt]
  · simp [hlt] at h

/-- Readings whose timestamps lie within the debounce window of the last
trigger are all absorbed: no emission, state untouched. -/
theorem run_absorbs_within_window (t : ℚ) (k : Nat) (rs : List Reading)
    (h : ∀ x ∈ rs, x.time ≤ t + debounceDelay) :
    run ⟨t, k⟩ rs = (⟨t, k⟩, List.replicate rs.length false) := by
  induction rs with
  | nil => rfl
  | cons r rs ih =>
    have hnot : ¬ (t + debounceDelay < r.time) :=
      not_lt.mpr (h r (List.mem_cons_self r rs))
    have hstep : step ⟨t, k⟩ r.time r.high r.busy = (⟨t, k⟩, false) := by
      unfold step; cases r.high <;> simp [hnot]
    have ih' := ih fun x hx => h x (List.mem_cons_of_mem r hx)
    simp [run, hstep, ih', List.replicate_succ]

/-- C5: after a raw HIGH reading triggers a MotionEvent, every reading in
the debounce window that follows is silently absorbed, and the first HIGH
reading past the window (camera not busy) emits exactly one further
MotionEvent. -/
theorem debounce_single_emission (s : PState) (r : Reading)
    (rs : List Reading) (y : Reading)
    (htrig : (step s r.time r.high r.busy).2 = true)
    (hwin : ∀ x ∈ rs, x.time ≤ r.time + debounceDelay)
    (hy : r.time + debounceDelay < y.time)
    (hyh : y.high = true) (hyb : y.busy = false) :
    (run (step s r.time r.high r.busy).1 (rs ++ [y])).2
      = List.replicate rs.length false ++ [true] := by
  rw [step_emit_state s r.time r.high r.busy htrig]
  have hystep : step ⟨r.time, 0⟩ y.time y.high y.busy = (⟨y.time, 0⟩, true) := by
    unfold step; simp [hyh, hyb, hy]
  induction rs with
  | nil => simp [run, hystep]
  | cons x xs ih =>
    have hxnot : ¬ (r.time + debounceDelay < x.time) :=
      not_lt.mpr (hwin x (List.mem_cons_self x xs))
    have hxstep : step ⟨r.time, 0⟩ x.time x.high x.busy = (⟨r.time, 0⟩, false) := by
      unfold step; cases x.high <;> simp [hxnot]
    have ih' := ih fun z hz => hwin z (List.mem_cons_of_mem x hz)
    simp [run, hxstep, ih', List.replicate_succ]

/-- Closed witness for `debounce_single_emission`: a trigger at t = 20,
two HIGH readings at t = 25 and t = 30 absorbed, one at t = 31 emitting. -/
theorem debounce_single_emission_witness :
    (step ⟨0, 0⟩ (20 : ℚ) true false).2 = true ∧
    (∀ x ∈ [Reading.mk 25 true false, Reading.mk 30 true false],
      x.time ≤ (20 : ℚ) + debounceDelay) ∧
    ((20 : ℚ) + debounceDelay < 31) ∧
    (run (step ⟨0, 0⟩ (20 : ℚ) true false).1
        ([Reading.mk 25 true false, Reading.mk 30 true false]
          ++ [Reading.mk 31 true false])).2
      = List.replicate 2 false ++ [true] :=
  ⟨by norm_num [step, debounceDelay],
    by intro x hx; fin_cases hx <;> norm_num [debounceDelay],
    by norm_num [debounceDelay],
    debounce_single_emission ⟨0, 0⟩ ⟨20, true, false⟩
      [⟨25, true, false⟩, ⟨30, true, false⟩] ⟨31, true, false⟩
      (by norm_num [step, debounceDelay])
      (by intro x hx; fin_cases hx <;> norm_num [debounceDelay])
      (by norm_num [debounceDelay]) rfl rfl⟩

end PIR

namespace CameraLoop

/-- C6: motion events arriving while the busy flag is set are refused (no
capture is attempted) and the consecutive-skip counter climbs by one per
skipped event; on the event that reaches the forced-reset threshold the
busy flag is force-cleared and the counter returns to 0. -/
theorem busy_skip_escalation (n : Nat) (h : n ≤ forcedResetThreshold) :
    runEvents n ⟨true, 0⟩
      = (if n = forcedResetThreshold then ⟨false, 0⟩ else ⟨true, n⟩, 0) := by
  simp only [forcedResetThreshold, maxConsecutiveBusy] at h ⊢
  interval_cases n <;> decide

/-- Closed witness for `busy_skip_escalation` at the threshold: eight
events against a stuck busy flag, all refused, end with the flag cleared
and the counter reset. -/
theorem busy_skip_escalation_witness :
    forcedResetThreshold ≤ forcedResetThreshold ∧
    runEvents forcedResetThreshold ⟨true, 0⟩ = (⟨false, 0⟩, 0) :=
  ⟨le_refl _, by
    have h := busy_skip_escalation forcedResetThreshold (le_refl _)
    simpa using h⟩

end CameraLoop

namespace Capture

/-- C7: a capture run always performs the video sub-operation first, then
the settling delay, then the still sub-operation; each artifact depends
only on its own sub-operation's oracle (a failure of one never aborts the
other), a sub-operation whose mode switch and recovery cycle both fail
yields `none` for its artifact, and even under a total video failure the
still capture is still attempted. -/
theorem capture_order_and_isolation (initialized rb rc cc : Bool)
    (vo : VideoOracle) (po : PhotoOracle) :
    (motionTriggeredCapture initialized vo po).2.1
      = (recordLowResVideo initialized vo).2 ++ [Op.settle]
        ++ (captureHighResSnapshot initialized po).2 ∧
    (motionTriggeredCapture initialized vo po).1.video
      = (recordLowResVideo initialized vo).1 ∧
    (motionTriggeredCapture initialized vo po).1.snapshot
      = (captureHighResSnapshot initialized po).1 ∧
    (motionTriggeredCapture initialized vo po).2.2 = false ∧
    (recordLowResVideo true ⟨false, false, rb, rc⟩).1 = none ∧
    (captureHighResSnapshot true ⟨false, false, cc⟩).1 = none ∧
    Op.photoSwitch ∈ (motionTriggeredCapture true ⟨false, false, rb, rc⟩ po).2.1 := by
  refine ⟨rfl, rfl, rfl, rfl, rfl, rfl, ?_⟩
  obtain ⟨a, b, c⟩ := po
  cases rb <;> cases rc <;> cases a <;> cases b <;> cases c <;> decide

end Capture

namespace ConfigExec

/-- C8: an `update_dwelling_config` request with
`data = {dwelling_threshold: 15.0}` processed against an available behavior
analyzer completes: `get_request_status` reports `completed` with a result
recording `dwelling_threshold=15.0`, and the analyzer's shared
`dwelling_threshold` read afterwards equals 15.0. -/
theorem dwelling_roundtrip (a : Analyzer) (id : String) :
    getRequestStatus id
        (processDwellingRequest id ⟨some 15, none⟩ ⟨[], [], some a⟩)
      = .completed (.ok [.thresholdSet 15]) ∧
    (processDwellingRequest id ⟨some 15, none⟩ ⟨[], [], some a⟩).analyzer
      = some { a with dwelling_threshold := 15 } := by
  have h15 : (0 : ℚ) < 15 := by norm_num
  constructor <;>
    simp [processDwellingRequest, updateDwellingConfig, frameSkipStep,
      getRequestStatus, h15, List.lookup]

end ConfigExec



namespace Concurrency

/-- Invariant of the interleaved system: the ghost capture count always
equals the worker-phase indicator (so it never exceeds one), and whenever a
capture is in progress the `camera_busy` flag is set. -/
theorem reachable_invariant (s : Sys) (hs : Reachable s) :
    s.active = phaseActive s.phase ∧
    (∀ k, s.phase = .capturing k → s.busy = true) := by
  induction hs with
  | base => exact ⟨rfl, nofun⟩
  | step hr hstep ih =>
    obtain ⟨iha, ihb⟩ := ih
    cases hstep with
    | pirSignal => exact ⟨iha, fun k hk => ihb k hk⟩
    | pirClear => exact ⟨iha, fun k hk => ihb k hk⟩
    | workerSkip hm hp hb hc => exact ⟨iha, fun k hk => ihb k hk⟩
    | workerForceReset hm hp hb hc =>
      refine ⟨iha, fun k hk => ?_⟩
      have hk' : Phase.waiting = Phase.capturing k := hp ▸ hk
      cases hk'
    | workerBeginCapture n hm hp hb =>
      rw [hp] at iha
      refine ⟨?_, fun k _ => rfl⟩
      show _ + 1 = phaseActive (.capturing n)
      rw [iha]; rfl
    | workerCaptureStep k hp =>
      rw [hp] at iha
      exact ⟨iha, fun j _ => ihb (k + 1) hp⟩
    | workerEndCapture hp =>
      rw [hp] at iha
      refine ⟨?_, nofun⟩
      show _ - 1 = phaseActive .waiting
      rw [iha]; rfl

/-- C9: at most one capture operation ever runs against the camera (the
ghost count stays ≤ 1 across every reachable step), a capture in progress
keeps the busy flag set, and while the busy flag is set no step — in
particular no interleaved motion-event arrival — can move the worker from
`waiting` into a capture. -/
theorem at_most_one_capture (s s' : Sys) (hs : Reachable s)
    (hstep : Step s s') :
    s.active ≤ 1 ∧ s'.active ≤ 1 ∧
    (∀ k, s.phase = .capturing k → s.busy = true) ∧
    (s.busy = true → s.phase = .waiting → s'.phase = .waiting) := by
  obtain ⟨ha, hb⟩ := reachable_invariant s hs
  obtain ⟨ha', _⟩ := reachable_invariant s' (Reachable.step hs hstep)
  refine ⟨?_, ?_, hb, ?_⟩
  · rw [ha]; cases s.phase <;> simp [phaseActive]
  · rw [ha']; cases s'.phase <;> simp [phaseActive]
  · intro hbusy hwait
    cases hstep with
    | pirSignal => exact hwait
    | pirClear => exact hwait
    | workerSkip hm hp hbb hc => exact hwait
    | workerForceReset hm hp hbb hc => exact hwait
    | workerBeginCapture n hm hp hbb => simp [hbusy] at hbb
    | workerCaptureStep k hp => simp [hwait] at hp
    | workerEndCapture hp => simp [hwait] at hp

/-- Closed witness for `at_most_one_capture`: a reachable mid-capture state
(busy flag set) taking one internal capture step. -/
theorem at_most_one_capture_witness :
    Reachable midCapture ∧ midCapture.active ≤ 1 ∧ midCapture'.active ≤ 1 := by
  have h1 : Step init signalled := Step.pirSignal init
  have h2 : Step signalled midCapture :=
    Step.workerBeginCapture signalled 1 rfl rfl rfl
  have hr : Reachable midCapture :=
    Reachable.step (Reachable.step Reachable.base h1) h2
  have h3 : Step midCapture midCapture' :=
    Step.workerCaptureStep midCapture 0 rfl
  have main := at_most_one_capture _ _ hr h3
  exact ⟨hr, main.1, main.2.1⟩

end Concurrency

namespace ConfigHeap


theorem parent_lt {c : Nat} (h : 0 < c) : (c - 1) / 2 < c := by omega

theorem getD_set_self (l : List Entry) (i : Nat) (h : i < l.length)
    (a : Entry) : (l.set i a).getD i dflt = a := by
  rw [List.getD_eq_getElem _ _ (by simpa using h)]
  exact List.getElem_set_self (by simpa using h)

theorem getD_set_ne (l : List Entry) (i j : Nat) (h : i ≠ j) (a : Entry) :
    (l.set i a).getD j dflt = l.getD j dflt := by
  rcases Nat.lt_or_ge j l.length with hj | hj
  · rw [List.getD_eq_getElem _ _ (by simpa using hj),
      List.getD_eq_getElem _ _ hj]
    exact List.getElem_set_ne h (by simpa using hj)
  · rw [List.getD_eq_default _ _ (by simpa using hj),
      List.getD_eq_default _ _ hj]

theorem keyAt_set_self (l : List Entry) (i : Nat) (h : i < l.length)
    (a : Entry) : keyAt (l.set i a) i = a.1 := by
  unfold keyAt
  rw [getD_set_self l i h a]

theorem keyAt_set_ne (l : List Entry) (i j : Nat) (h : i ≠ j) (a : Entry) :
    keyAt (l.set i a) j = keyAt l j := by
  unfold keyAt
  rw [getD_set_ne l i j h a]

theorem coe_set : ∀ (l : List Entry) (i : Nat), i < l.length → ∀ (a : Entry),
    (↑(l.set i a) : Multiset Entry) + {l.getD i dflt}
      = (↑l : Multiset Entry) + {a} := by
  intro l
  induction l with
  | nil => intro i h a; simp at h
  | cons x t ih =>
    intro i h a
    cases i with
    | zero =>
      simp only [List.set_cons_zero, List.getD_cons_zero]
      rw [← Multiset.cons_coe, ← Multiset.cons_coe, Multiset.cons_add,
        Multiset.cons_add, add_comm (↑t : Multiset Entry) {x},
        add_comm (↑t : Multiset Entry) {a}, Multiset.singleton_add,
        Multiset.singleton_add]
      exact Multiset.cons_swap a x ↑t
    | succ i =>
      simp only [List.set_cons_succ, List.getD_cons_succ]
      rw [← Multiset.cons_coe, ← Multiset.cons_coe, Multiset.cons_add,
        Multiset.cons_add]
      exact congrArg (Multiset.cons x) (ih i (by simpa using h) a)

end ConfigHeap

namespace ConfigHeap

theorem keyAt_def (l : List Entry) (i : Nat) :
    keyAt l i = (l.getD i dflt).1 := rfl

theorem length_siftdownAux (fuel : Nat) :
    ∀ (l : List Entry) (x : Entry) (sp pos : Nat),
    (siftdownAux fuel l x sp pos).length = l.length := by
  induction fuel with
  | zero => intro l x sp pos; simp [siftdownAux]
  | succ fuel ih =>
    intro l x sp pos
    simp only [siftdownAux]
    split
    · split
      · rw [ih]; simp
      · simp
    · simp

theorem cancel3 {A B C D P G X : Multiset Entry}
    (e1 : A + P = B + X) (e2 : B + G = C + P) (e3 : D + G = C + X) :
    A = D := by
  have h : A + (P + G) = D + (P + G) := by
    calc A + (P + G) = (A + P) + G := (add_assoc _ _ _).symm
    _ = (B + X) + G := by rw [e1]
    _ = (B + G) + X := add_right_comm B X G
    _ = (C + P) + X := by rw [e2]
    _ = (C + X) + P := add_right_comm C P X
    _ = (D + G) + P := by rw [e3]
    _ = D + (P + G) := by rw [add_assoc, add_comm G P]
  exact add_right_cancel h

theorem coe_siftdownAux (fuel : Nat) :
    ∀ (l : List Entry) (x : Entry) (sp pos : Nat), pos < l.length →
    (↑(siftdownAux fuel l x sp pos) : Multiset Entry) = ↑(l.set pos x) := by
  induction fuel with
  | zero => intro l x sp pos _; rfl
  | succ fuel ih =>
    intro l x sp pos h
    simp only [siftdownAux]
    split_ifs with hsp hlt
    · have hpos : 0 < pos := Nat.lt_of_le_of_lt (Nat.zero_le sp) hsp
      have hpp : (pos - 1) / 2 < pos := parent_lt hpos
      rw [ih _ x sp _ (by rw [List.length_set]; omega)]
      have hne : pos ≠ (pos - 1) / 2 := by omega
      have e1 := coe_set (l.set pos (l.getD ((pos - 1) / 2) dflt))
        ((pos - 1) / 2) (by rw [List.length_set]; omega) x
      rw [getD_set_ne l pos ((pos - 1) / 2) hne _] at e1
      have e2 := coe_set l pos h (l.getD ((pos - 1) / 2) dflt)
      have e3 := coe_set l pos h x
      exact cancel3 e1 e2 e3
    · rfl
    · rfl

end ConfigHeap

namespace ConfigHeap

theorem entryLt_iff (a b : Entry) : entryLt a b = true ↔ a.1 < b.1 := by
  simp [entryLt]

theorem siftdownAux_heap (fuel : Nat) :
    ∀ (l : List Entry) (x : Entry) (pos : Nat),
    pos ≤ fuel → pos < l.length →
    (∀ c, 0 < c → c < l.length → c ≠ pos →
      keyAt l ((c - 1) / 2) ≤ keyAt l c) →
    (∀ c, 0 < c → c < l.length → (c - 1) / 2 = pos → x.1 ≤ keyAt l c) →
    (0 < pos → ∀ c, 0 < c → c < l.length → (c - 1) / 2 = pos →
      keyAt l ((pos - 1) / 2) ≤ keyAt l c) →
    IsHeap (siftdownAux fuel l x 0 pos) := by
  induction fuel with
  | zero =>
    intro l x pos hf hlen hI1 hI2 _
    have hpos : pos = 0 := Nat.le_zero.mp hf
    subst hpos
    show IsHeap (l.set 0 x)
    intro c hc hclen
    rw [List.length_set] at hclen
    by_cases hcp : (c - 1) / 2 = 0
    · rw [hcp, keyAt_set_self l 0 hlen x, keyAt_set_ne l 0 c (by omega) x]
      exact hI2 c hc hclen hcp
    · rw [keyAt_set_ne l 0 _ (by omega) x, keyAt_set_ne l 0 c (by omega) x]
      exact hI1 c hc hclen (by omega)
  | succ fuel ih =>
    intro l x pos hf hlen hI1 hI2 hI3
    simp only [siftdownAux]
    split_ifs with hsp hlt
    · -- move the parent down into the hole and recurse at the parent slot
      have hpos : 0 < pos := hsp
      have hpp : (pos - 1) / 2 < pos := parent_lt hpos
      have hxlt : x.1 < keyAt l ((pos - 1) / 2) := by
        rw [keyAt_def]; exact (entryLt_iff _ _).mp hlt
      refine ih _ x ((pos - 1) / 2) (by omega) (by rw [List.length_set]; omega)
        ?_ ?_ ?_
      · -- I1 for the shifted array
        intro c hc hclen hcpp
        rw [List.length_set] at hclen
        by_cases hcpos : c = pos
        · rw [hcpos]
          rw [keyAt_set_ne l pos _ (by omega) _,
            keyAt_set_self l pos hlen _]
          rw [keyAt_def]
        · by_cases hpar : (c - 1) / 2 = pos
          · rw [keyAt_set_ne l pos c (Ne.symm hcpos) _, hpar,
              keyAt_set_self l pos hlen _]
            rw [keyAt_def] at hI3 ⊢
            exact hI3 hpos c hc hclen hpar
          · rw [keyAt_set_ne l pos c (Ne.symm hcpos) _,
              keyAt_set_ne l pos _ (Ne.symm hpar) _]
            exact hI1 c hc hclen hcpos
      · -- I2: the new item fits under the children of the new hole
        intro c hc hclen hcpp
        rw [List.length_set] at hclen
        by_cases hcpos : c = pos
        · rw [hcpos]
          rw [keyAt_set_self l pos hlen _]
          rw [keyAt_def] at hxlt
          exact le_of_lt hxlt
        · rw [keyAt_set_ne l pos c (Ne.symm hcpos) _]
          have h1 : keyAt l ((c - 1) / 2) ≤ keyAt l c := hI1 c hc hclen hcpos
          rw [hcpp] at h1
          exact le_trans (le_of_lt hxlt) h1
      · -- I3: children of the new hole fit under its parent
        intro hpp0 c hc hclen hcpp
        rw [List.length_set] at hclen
        have hgne : pos ≠ ((pos - 1) / 2 - 1) / 2 := by omega
        rw [keyAt_set_ne l pos _ hgne _]
        have hgp : keyAt l (((pos - 1) / 2 - 1) / 2) ≤ keyAt l ((pos - 1) / 2) :=
          hI1 ((pos - 1) / 2) hpp0 (by omega) (by omega)
        by_cases hcpos : c = pos
        · rw [hcpos]
          rw [keyAt_set_self l pos hlen _]
          rw [keyAt_def] at hgp ⊢
          exact hgp
        · rw [keyAt_set_ne l pos c (Ne.symm hcpos) _]
          have h1 : keyAt l ((c - 1) / 2) ≤ keyAt l c := hI1 c hc hclen hcpos
          rw [hcpp] at h1
          exact le_trans hgp h1
    · -- the new item rests at the hole
      intro c hc hclen
      rw [List.length_set] at hclen
      have hge : keyAt l ((pos - 1) / 2) ≤ x.1 := by
        rw [keyAt_def]
        have := (not_congr (entryLt_iff x (l.getD ((pos - 1) / 2) dflt))).mp
          (by simpa using hlt)
        omega
      by_cases hcpos : c = pos
      · rw [hcpos]
        rw [keyAt_set_ne l pos _ (by omega) _, keyAt_set_self l pos hlen _]
        exact hge
      · by_cases hpar : (c - 1) / 2 = pos
        · rw [keyAt_set_ne l pos c (Ne.symm hcpos) _, hpar,
            keyAt_set_self l pos hlen _]
          exact hI2 c hc hclen hpar
        · rw [keyAt_set_ne l pos c (Ne.symm hcpos) _,
            keyAt_set_ne l pos _ (Ne.symm hpar) _]
          exact hI1 c hc hclen hcpos
    · -- pos = 0: write at the root
      have hpos : pos = 0 := by omega
      subst hpos
      intro c hc hclen
      rw [List.length_set] at hclen
      by_cases hcp : (c - 1) / 2 = 0
      · rw [hcp, keyAt_set_self l 0 hlen x, keyAt_set_ne l 0 c (by omega) x]
        exact hI2 c hc hclen hcp
      · rw [keyAt_set_ne l 0 _ (by omega) x, keyAt_set_ne l 0 c (by omega) x]
        exact hI1 c hc hclen (by omega)

end ConfigHeap

namespace ConfigHeap

theorem keyAt_append (l : List Entry) (x : Entry) (j : Nat)
    (h : j < l.length) : keyAt (l ++ [x]) j = keyAt l j := by
  unfold keyAt
  rw [List.getD_append _ _ _ _ h]

theorem getD_append_self (l : List Entry) (x : Entry) :
    (l ++ [x]).getD l.length dflt = x := by
  rw [List.getD_append_right _ _ _ _ (le_refl _)]
  simp

theorem coe_set_getD (l : List Entry) (i : Nat) (h : i < l.length) :
    (↑(l.set i (l.getD i dflt)) : Multiset Entry) = ↑l := by
  have e := coe_set l i h (l.getD i dflt)
  exact add_right_cancel e

theorem length_heappush (l : List Entry) (x : Entry) :
    (heappush l x).length = l.length + 1 := by
  unfold heappush siftdown
  rw [length_siftdownAux]
  simp

theorem coe_heappush (l : List Entry) (x : Entry) :
    (↑(heappush l x) : Multiset Entry) = ↑l + {x} := by
  unfold heappush siftdown
  rw [coe_siftdownAux _ _ _ _ _ (by simp), getD_append_self]
  have e := coe_set (l ++ [x]) l.length (by simp) x
  rw [getD_append_self] at e
  rw [add_right_cancel e, ← Multiset.coe_singleton, ← Multiset.coe_add]

theorem heappush_heap (l : List Entry) (hl : IsHeap l) (x : Entry) :
    IsHeap (heappush l x) := by
  unfold heappush siftdown
  rw [getD_append_self]
  refine siftdownAux_heap l.length (l ++ [x]) x l.length (le_refl _)
    (by simp) ?_ ?_ ?_
  · intro c hc hclen hcp
    rw [List.length_append, List.length_singleton] at hclen
    have hcl : c < l.length := by omega
    rw [keyAt_append _ _ _ hcl, keyAt_append _ _ _ (by omega)]
    exact hl c hc hcl
  · intro c hc hclen hpar
    rw [List.length_append, List.length_singleton] at hclen
    omega
  · intro _ c hc hclen hpar
    rw [List.length_append, List.length_singleton] at hclen
    omega

theorem root_le (l : List Entry) (h : IsHeap l) :
    ∀ j, j < l.length → keyAt l 0 ≤ keyAt l j := by
  intro j
  induction j using Nat.strong_induction_on with
  | _ j ih =>
    intro hj
    rcases Nat.eq_zero_or_pos j with rfl | hpos
    · exact le_refl _
    · exact le_trans
        (ih ((j - 1) / 2) (parent_lt hpos) (lt_trans (parent_lt hpos) hj))
        (h j hpos hj)

end ConfigHeap

namespace ConfigHeap

theorem step_K1 (l : List Entry) (pos cstar : Nat)
    (hpos : pos < l.length) (hlt : pos < cstar) (hcs : cstar < l.length)
    (hpar : (cstar - 1) / 2 = pos)
    (hmin : ∀ s, 0 < s → s < l.length → (s - 1) / 2 = pos →
      keyAt l cstar ≤ keyAt l s)
    (hK1 : ∀ c, 0 < c → c < l.length → (c - 1) / 2 ≠ pos →
      keyAt l ((c - 1) / 2) ≤ keyAt l c)
    (hK2 : 0 < pos → ∀ c, 0 < c → c < l.length → (c - 1) / 2 = pos →
      keyAt l ((pos - 1) / 2) ≤ keyAt l c) :
    ∀ c, 0 < c → c < l.length → (c - 1) / 2 ≠ cstar →
      keyAt (l.set pos (l.getD cstar dflt)) ((c - 1) / 2)
        ≤ keyAt (l.set pos (l.getD cstar dflt)) c := by
  intro c hc hclen hne
  by_cases hcpos : c = pos
  · have hp0 : 0 < pos := hcpos ▸ hc
    rw [hcpos, keyAt_set_ne l pos _ (by omega) _,
      keyAt_set_self l pos hpos _]
    rw [keyAt_def] at hK2 ⊢
    exact hK2 hp0 cstar (by omega) hcs hpar
  · by_cases hcc : (c - 1) / 2 = pos
    · by_cases hccs : c = cstar
      · rw [hccs, hpar, keyAt_set_self l pos hpos _,
          keyAt_set_ne l pos cstar (by omega) _]
        rw [keyAt_def]
      · rw [hcc, keyAt_set_self l pos hpos _,
          keyAt_set_ne l pos c (Ne.symm hcpos) _]
        rw [keyAt_def] at hmin ⊢
        exact hmin c hc hclen hcc
    · rw [keyAt_set_ne l pos c (Ne.symm hcpos) _,
        keyAt_set_ne l pos _ (fun h => hcc h.symm) _]
      exact hK1 c hc hclen hcc

theorem step_K2 (l : List Entry) (pos cstar : Nat)
    (hpos : pos < l.length) (hlt : pos < cstar) (hcs : cstar < l.length)
    (hpar : (cstar - 1) / 2 = pos)
    (hK1 : ∀ c, 0 < c → c < l.length → (c - 1) / 2 ≠ pos →
      keyAt l ((c - 1) / 2) ≤ keyAt l c) :
    ∀ c, 0 < c → c < l.length → (c - 1) / 2 = cstar →
      keyAt (l.set pos (l.getD cstar dflt)) ((cstar - 1) / 2)
        ≤ keyAt (l.set pos (l.getD cstar dflt)) c := by
  intro c hc hclen hcc
  have hccstar : cstar < c := by omega
  rw [hpar, keyAt_set_self l pos hpos _,
    keyAt_set_ne l pos c (by omega) _]
  have h1 := hK1 c hc hclen (by omega)
  rw [hcc] at h1
  simp only [keyAt_def] at h1 ⊢
  exact h1

theorem step_coe (l : List Entry) (pos cstar : Nat)
    (hpos : pos < l.length) (hne : pos ≠ cstar) (hcs : cstar < l.length)
    (y : Entry) :
    (↑((l.set pos (l.getD cstar dflt)).set cstar y) : Multiset Entry)
      = ↑(l.set pos y) := by
  have e1 := coe_set (l.set pos (l.getD cstar dflt)) cstar
    (by rw [List.length_set]; exact hcs) y
  rw [getD_set_ne l pos cstar hne _] at e1
  have e2 := coe_set l pos hpos (l.getD cstar dflt)
  have e3 := coe_set l pos hpos y
  exact cancel3 e1 e2 e3

end ConfigHeap

namespace ConfigHeap

theorem siftupLoop_spec (fuel : Nat) :
    ∀ (l : List Entry) (pos : Nat), pos < l.length →
    l.length ≤ fuel + pos →
    (∀ c, 0 < c → c < l.length → (c - 1) / 2 ≠ pos →
      keyAt l ((c - 1) / 2) ≤ keyAt l c) →
    (0 < pos → ∀ c, 0 < c → c < l.length → (c - 1) / 2 = pos →
      keyAt l ((pos - 1) / 2) ≤ keyAt l c) →
    (siftupLoop fuel l pos).1.length = l.length ∧
    (siftupLoop fuel l pos).2 < l.length ∧
    l.length ≤ 2 * (siftupLoop fuel l pos).2 + 1 ∧
    (∀ y : Entry,
      (↑((siftupLoop fuel l pos).1.set (siftupLoop fuel l pos).2 y) :
        Multiset Entry) = ↑(l.set pos y)) ∧
    (∀ c, 0 < c → c < l.length → (c - 1) / 2 ≠ (siftupLoop fuel l pos).2 →
      keyAt (siftupLoop fuel l pos).1 ((c - 1) / 2)
        ≤ keyAt (siftupLoop fuel l pos).1 c) := by
  induction fuel with
  | zero => intro l pos h1 h2 _ _; omega
  | succ fuel ih =>
    intro l pos hpos hfuel hK1 hK2
    by_cases hguard : 2 * pos + 1 < l.length
    · have hleft : keyAt l (2 * pos + 1) = (l.getD (2 * pos + 1) dflt).1 := rfl
      by_cases hsel :
          (decide (2 * pos + 1 + 1 < l.length) &&
            !entryLt (l.getD (2 * pos + 1) dflt)
              (l.getD (2 * pos + 1 + 1) dflt)) = true
      · -- the right child is chosen
        have hrlen : 2 * pos + 1 + 1 < l.length := by
          simp only [Bool.and_eq_true, decide_eq_true_eq] at hsel
          exact hsel.1
        have hrle : keyAt l (2 * pos + 1 + 1) ≤ keyAt l (2 * pos + 1) := by
          simp only [Bool.and_eq_true, Bool.not_eq_true', entryLt,
            decide_eq_true_eq, decide_eq_false_iff_not] at hsel
          simp only [keyAt_def]
          omega
        have hmin : ∀ s, 0 < s → s < l.length → (s - 1) / 2 = pos →
            keyAt l (2 * pos + 1 + 1) ≤ keyAt l s := by
          intro s hs hslen hsp
          have : s = 2 * pos + 1 ∨ s = 2 * pos + 1 + 1 := by omega
          rcases this with rfl | rfl
          · exact hrle
          · exact le_refl _
        have hrec := ih (l.set pos (l.getD (2 * pos + 1 + 1) dflt))
          (2 * pos + 1 + 1)
          (by rw [List.length_set]; exact hrlen)
          (by rw [List.length_set]; omega)
          (by
            have := step_K1 l pos (2 * pos + 1 + 1) hpos (by omega) hrlen
              (by omega) hmin hK1 hK2
            simpa [List.length_set] using this)
          (by
            intro _
            have := step_K2 l pos (2 * pos + 1 + 1) hpos (by omega) hrlen
              (by omega) hK1
            simpa [List.length_set] using this)
        have hunf : siftupLoop (fuel + 1) l pos =
            siftupLoop fuel (l.set pos (l.getD (2 * pos + 1 + 1) dflt))
              (2 * pos + 1 + 1) := by
          simp only [siftupLoop]
          rw [if_pos hguard, if_pos hsel]
        rw [hunf]
        obtain ⟨r1, r2, r3, r4, r5⟩ := hrec
        rw [List.length_set] at r1 r2 r3 r5
        refine ⟨r1, r2, r3, fun y => ?_, r5⟩
        rw [r4 y, step_coe l pos (2 * pos + 1 + 1) hpos (by omega) hrlen y]
      · -- the left child is chosen
        have hmin : ∀ s, 0 < s → s < l.length → (s - 1) / 2 = pos →
            keyAt l (2 * pos + 1) ≤ keyAt l s := by
          intro s hs hslen hsp
          have hcases : s = 2 * pos + 1 ∨ s = 2 * pos + 1 + 1 := by omega
          rcases hcases with rfl | rfl
          · exact le_refl _
          · simp only [Bool.and_eq_true, Bool.not_eq_true', entryLt,
              decide_eq_true_eq, decide_eq_false_iff_not, not_and,
              Bool.not_eq_false] at hsel
            have := hsel (by omega)
            simp only [keyAt_def]
            omega
        have hrec := ih (l.set pos (l.getD (2 * pos + 1) dflt))
          (2 * pos + 1)
          (by rw [List.length_set]; exact hguard)
          (by rw [List.length_set]; omega)
          (by
            have := step_K1 l pos (2 * pos + 1) hpos (by omega) hguard
              (by omega) hmin hK1 hK2
            simpa [List.length_set] using this)
          (by
            intro _
            have := step_K2 l pos (2 * pos + 1) hpos (by omega) hguard
              (by omega) hK1
            simpa [List.length_set] using this)
        have hunf : siftupLoop (fuel + 1) l pos =
            siftupLoop fuel (l.set pos (l.getD (2 * pos + 1) dflt))
              (2 * pos + 1) := by
          simp only [siftupLoop]
          rw [if_pos hguard, if_neg (by simpa using hsel)]
        rw [hunf]
        obtain ⟨r1, r2, r3, r4, r5⟩ := hrec
        rw [List.length_set] at r1 r2 r3 r5
        refine ⟨r1, r2, r3, fun y => ?_, r5⟩
        rw [r4 y, step_coe l pos (2 * pos + 1) hpos (by omega) hguard y]
    · have hunf : siftupLoop (fuel + 1) l pos = (l, pos) := by
        simp only [siftupLoop]
        rw [if_neg hguard]
      rw [hunf]
      exact ⟨rfl, hpos, by omega, fun y => rfl, hK1⟩

end ConfigHeap

namespace ConfigHeap

theorem siftup_zero_spec (m : List Entry) (hne : 0 < m.length)
    (hK1 : ∀ c, 0 < c → c < m.length → (c - 1) / 2 ≠ 0 →
      keyAt m ((c - 1) / 2) ≤ keyAt m c) :
    IsHeap (siftup m 0) ∧ (↑(siftup m 0) : Multiset Entry) = ↑m ∧
    (siftup m 0).length = m.length := by
  obtain ⟨r1, r2, r3, r4, r5⟩ :=
    siftupLoop_spec m.length m 0 hne (by omega) hK1 (by omega)
  have hunf : siftup m 0 = siftdownAux (siftupLoop m.length m 0).2
      ((siftupLoop m.length m 0).1.set (siftupLoop m.length m 0).2
        (m.getD 0 dflt))
      (m.getD 0 dflt) 0 (siftupLoop m.length m 0).2 := rfl
  rw [hunf]
  refine ⟨?_, ?_, ?_⟩
  · refine siftdownAux_heap (siftupLoop m.length m 0).2 _ _ _
      (le_refl _) (by rw [List.length_set, r1]; exact r2) ?_ ?_ ?_
    · intro c hc hclen hcp
      rw [List.length_set, r1] at hclen
      have hpar_ne : (c - 1) / 2 ≠ (siftupLoop m.length m 0).2 := by omega
      rw [keyAt_set_ne _ _ _ (fun hh => hpar_ne hh.symm) _,
        keyAt_set_ne _ _ c (fun hh => hcp hh.symm) _]
      exact r5 c hc hclen hpar_ne
    · intro c hc hclen hpar
      rw [List.length_set, r1] at hclen
      omega
    · intro _ c hc hclen hpar
      rw [List.length_set, r1] at hclen
      omega
  · rw [coe_siftdownAux _ _ _ _ _ (by rw [List.length_set, r1]; exact r2)]
    rw [List.set_set, r4 (m.getD 0 dflt)]
    exact coe_set_getD m 0 hne
  · rw [length_siftdownAux, List.length_set, r1]

theorem heappop_spec (l : List Entry) (h : IsHeap l) (hne : l ≠ []) :
    ∃ rest, heappop l = some (l.getD 0 dflt, rest) ∧ IsHeap rest ∧
      rest.length = l.length - 1 ∧
      (↑l : Multiset Entry) = l.getD 0 dflt ::ₘ (↑rest : Multiset Entry) := by
  have hlast : l.getLast? = some (l.getLast hne) :=
    List.getLast?_eq_getLast l hne
  have hsplit : l.dropLast ++ [l.getLast hne] = l :=
    List.dropLast_append_getLast hne
  cases hdrop : l.dropLast with
  | nil =>
    have hlen1 : l.length = 1 := by
      have := congrArg List.length hdrop
      simp only [List.length_dropLast, List.length_nil] at this
      have hpos : 0 < l.length := List.length_pos.mpr hne
      omega
    obtain ⟨x, rfl⟩ : ∃ x, l = [x] := by
      match l, hlen1 with
      | [x], _ => exact ⟨x, rfl⟩
    refine ⟨[], by rfl, ?_, rfl, rfl⟩
    intro c hc hclen
    simp at hclen
  | cons r0 rest0 =>
    have hunf : heappop l =
        some (r0, siftup ((r0 :: rest0).set 0 (l.getLast hne)) 0) := by
      simp only [heappop, hlast, hdrop]
    rw [hdrop] at hsplit
    have hr0 : l.getD 0 dflt = r0 := by
      rw [← hsplit]
      rfl
    have hlen : l.length = rest0.length + 2 := by
      rw [← hsplit]
      simp
    have hsplit' : (r0 :: rest0) ++ [l.getLast hne] = l := by
      simpa using hsplit
    have hkey : ∀ j, 0 < j → j < rest0.length + 1 →
        keyAt ((r0 :: rest0).set 0 (l.getLast hne)) j = keyAt l j := by
      intro j hj hjlen
      rw [keyAt_set_ne _ 0 j (by omega) _]
      calc keyAt (r0 :: rest0) j
          = keyAt ((r0 :: rest0) ++ [l.getLast hne]) j :=
            (keyAt_append _ _ _ (by simpa using hjlen)).symm
        _ = keyAt l j := by rw [hsplit']
    have hmK1 : ∀ c, 0 < c →
        c < ((r0 :: rest0).set 0 (l.getLast hne)).length →
        (c - 1) / 2 ≠ 0 →
        keyAt ((r0 :: rest0).set 0 (l.getLast hne)) ((c - 1) / 2)
          ≤ keyAt ((r0 :: rest0).set 0 (l.getLast hne)) c := by
      intro c hc hclen hcp
      rw [List.length_set, List.length_cons] at hclen
      rw [hkey _ (by omega) (by omega), hkey c hc hclen]
      exact h c hc (by omega)
    obtain ⟨hh, hcoe, hlen2⟩ := siftup_zero_spec
      ((r0 :: rest0).set 0 (l.getLast hne)) (by simp) hmK1
    refine ⟨siftup ((r0 :: rest0).set 0 (l.getLast hne)) 0, ?_, hh, ?_, ?_⟩
    · rw [hunf, hr0]
    · rw [hlen2, List.length_set, List.length_cons, hlen]
      omega
    · rw [hr0, hcoe]
      have e := coe_set (r0 :: rest0) 0 (by simp) (l.getLast hne)
      rw [List.getD_cons_zero] at e
      have hl := congrArg (fun t : List Entry => (↑t : Multiset Entry)) hsplit'
      simp only at hl
      have hl2 : (↑l : Multiset Entry) = ↑(r0 :: rest0) + {l.getLast hne} := by
        rw [← hl, ← Multiset.coe_singleton, ← Multiset.coe_add]
      rw [hl2, ← e, add_comm, Multiset.singleton_add]

end ConfigHeap

namespace ConfigHeap

theorem drainFuel_spec (fuel : Nat) :
    ∀ l : List Entry, l.length ≤ fuel → IsHeap l →
    List.Sorted (fun a b : Entry => a.1 ≤ b.1) (drainFuel fuel l) ∧
    (↑(drainFuel fuel l) : Multiset Entry) = ↑l := by
  induction fuel with
  | zero =>
    intro l hl _
    have : l = [] := List.length_eq_zero.mp (by omega)
    subst this
    exact ⟨List.sorted_nil, rfl⟩
  | succ fuel ih =>
    intro l hl hheap
    by_cases hne : l = []
    · subst hne
      exact ⟨List.sorted_nil, rfl⟩
    · obtain ⟨rest, hpop, hrheap, hrlen, hcoe⟩ := heappop_spec l hheap hne
      have hunf : drainFuel (fuel + 1) l
          = l.getD 0 dflt :: drainFuel fuel rest := by
        simp only [drainFuel, hpop]
      have hlpos : 0 < l.length := List.length_pos.mpr hne
      obtain ⟨ihs, ihc⟩ := ih rest (by omega) hrheap
      rw [hunf]
      constructor
      · rw [List.sorted_cons]
        refine ⟨?_, ihs⟩
        intro b hb
        have hbr : b ∈ (↑rest : Multiset Entry) := by
          rw [← ihc]
          exact Multiset.mem_coe.mpr hb
        have hbl : b ∈ l := by
          have : b ∈ (↑l : Multiset Entry) := by
            rw [hcoe]
            exact Multiset.mem_cons_of_mem hbr
          exact Multiset.mem_coe.mp this
        obtain ⟨j, hj, hjb⟩ := List.getElem_of_mem hbl
        have hroot := root_le l hheap j hj
        have hb1 : keyAt l j = b.1 := by
          rw [keyAt_def, List.getD_eq_getElem _ _ hj, hjb]
        rw [hb1] at hroot
        exact hroot
      · rw [← Multiset.cons_coe, ihc, ← hcoe]

theorem foldl_heappush_spec :
    ∀ (es : List Entry) (acc : List Entry), IsHeap acc →
    IsHeap (es.foldl heappush acc) ∧
    (↑(es.foldl heappush acc) : Multiset Entry)
      = (↑acc : Multiset Entry) + ↑es := by
  intro es
  induction es with
  | nil => intro acc hacc; exact ⟨hacc, by simp⟩
  | cons e es ih =>
    intro acc hacc
    obtain ⟨hh, hc⟩ := ih (heappush acc e) (heappush_heap acc hacc e)
    refine ⟨hh, ?_⟩
    rw [List.foldl_cons, hc, coe_heappush, ← Multiset.cons_coe,
      add_assoc, Multiset.singleton_add]

end ConfigHeap

namespace ConfigHeap

/-- C1 counterexample: four requests submitted with equal priority 1 and
sequence numbers 0,1,2,3 are processed in sequence order 0,2,1,3 — the
binary-heap pop order — not in submission order, so FIFO among equal
priorities fails. -/
theorem config_tie_fifo_cex :
    (drain (pushAll [1, 1, 1, 1])).map Prod.snd = [0, 2, 1, 3] ∧
    (drain (pushAll [1, 1, 1, 1])).map Prod.snd ≠ [0, 1, 2, 3] := by
  decide

/-- C1 amended: for every set of requests added to the ConfigurationQueue,
the worker dequeues and applies exactly the submitted requests in ascending
order of their priority integer; among equal priorities the order is the
heap's pop order, which need not be submission order. -/
theorem config_priority_order (ps : List Nat) :
    List.Sorted (fun a b : Entry => a.1 ≤ b.1) (drain (pushAll ps)) ∧
    (↑(drain (pushAll ps)) : Multiset Entry) = ↑(submissionEntries ps) := by
  have hEmpty : IsHeap ([] : List Entry) := by
    intro c hc hclen
    simp at hclen
  obtain ⟨hh, hc⟩ := foldl_heappush_spec (submissionEntries ps) [] hEmpty
  have hh' : IsHeap (pushAll ps) := hh
  obtain ⟨hs, hc2⟩ := drainFuel_spec (pushAll ps).length (pushAll ps)
    (le_refl _) hh'
  have hdrain : drain (pushAll ps)
      = drainFuel (pushAll ps).length (pushAll ps) := rfl
  rw [hdrain]
  refine ⟨hs, ?_⟩
  rw [hc2]
  simpa using hc

end ConfigHeap
